import Mathlib

/-!
Verification of the asynchronous bulk-refresh orchestrator of the
monarchmoney-go repository: the refresh job state machine, its polling
loop with adaptive backoff, cancellation and timeout handling, the
per-account progress map, and the job manager registry.

The Go source is shallowly embedded: machine time is an abstract `Int`
timestamp supplied by the environment; the polling loop of `Wait` is
driven by an explicit list of events (ticker fires carrying the probe
response, or the bounding context becoming done); the `int32` check
counter is modelled as an `Int` wrapped to 32 bits on increment; the Go
`map[string]bool` progress map is an association list with Go map
assignment semantics (update in place, insert fresh keys at the end).
-/

namespace Monarch

/-! ### Go error values

Errors are sentinel values created by `errors.New`, the API `*Error`
struct carrying a status code (with a nil `Err` field, `apiError`, or a
non-nil wrapped cause, `apiErrorWrap`), or a message-wrapping layer as
produced by `github.com/pkg/errors.Wrap`.
`goErrorIs` models `errors.Is` against a sentinel (the `Error.Is` method
delegates to the wrapped cause, and unwrapping walks the same chain);
`goErrorAsAPI` models `errors.As` with a `*Error` target. -/

inductive GoError where
  | sentinel (msg : String)
  | apiError (code msg : String) (statusCode : Int)
  | apiErrorWrap (code msg : String) (statusCode : Int) (cause : GoError)
  | wrapMsg (msg : String) (cause : GoError)
deriving Repr, DecidableEq

def goErrorIs : GoError → String → Bool
  | .sentinel m, s => m == s
  | .apiError _ _ _, _ => false
  | .apiErrorWrap _ _ _ e, s => goErrorIs e s
  | .wrapMsg _ e, s => goErrorIs e s

def goErrorAsAPI : GoError → Option (String × Int)
  | .sentinel _ => none
  | .apiError c _ sc => some (c, sc)
  | .apiErrorWrap c _ sc _ => some (c, sc)
  | .wrapMsg _ e => goErrorAsAPI e

/-- Sentinel from errors.go: `ErrRateLimited`. -/
def ErrRateLimited : GoError := .sentinel "rate limited"

/-- Sentinel from errors.go: `ErrTimeout`. -/
def ErrTimeout : GoError := .sentinel "request timeout"

/-- Sentinel from errors.go: `ErrServerError`. -/
def ErrServerError : GoError := .sentinel "server error"

/-- Sentinel from errors.go: `ErrRefreshTimeout`. -/
def ErrRefreshTimeout : GoError := .sentinel "refresh timeout"

/-- The error built by `errors.New` in the cancelled branch of `Wait`. -/
def errJobCancelled : GoError := .sentinel "refresh job was cancelled"

/-- The message `checkStatus` wraps a probe error with. -/
def checkStatusWrapMsg : String := "failed to check refresh status"

/-- Embeds `IsRetryable` from errors.go, lines 162-175. -/
def IsRetryable (err : GoError) : Bool :=
  if goErrorIs err "rate limited" || goErrorIs err "request timeout"
      || goErrorIs err "server error" then
    true
  else
    match goErrorAsAPI err with
    | some (_, statusCode) => statusCode ≥ 500 || statusCode == 429
    | none => false

/-! ### Probe signals

The per-account rows decoded from the refresh-status query inside
`checkStatus`. -/

structure AccountCredential where
  updateRequired : Bool
  disconnectedAt : Option Int
deriving Repr, DecidableEq

structure AccountStatusInfo where
  id : String
  syncing : Bool
  lastSynced : Option Int
  credential : Option AccountCredential
deriving Repr, DecidableEq

/-- A probe round trip either fails with an error or yields the decoded
per-account rows. -/
inductive ProbeResult where
  | err (e : GoError)
  | ok (accounts : List AccountStatusInfo)
deriving Repr, DecidableEq

/-! ### The Go `map[string]bool` progress map -/

/-- Go map assignment `m[k] = v`: replaces the binding if the key is
present, otherwise inserts it. -/
def mapSet (m : List (String × Bool)) (k : String) (v : Bool) :
    List (String × Bool) :=
  match m with
  | [] => [(k, v)]
  | (k', v') :: rest =>
      if k' = k then (k, v) :: rest else (k', v') :: mapSet rest k v

/-- Go map read `m[k]` (as an option). -/
def mapGet (m : List (String × Bool)) (k : String) : Option Bool :=
  match m with
  | [] => none
  | (k', v) :: rest => if k' = k then some v else mapGet rest k

/-- The key set of the map. -/
def mapKeys (m : List (String × Bool)) : List String := m.map Prod.fst

/-! ### The refresh job -/

/-- Embeds `RefreshStatus` from part_004, lines 14-23. -/
inductive RefreshStatus where
  | pending
  | inProgress
  | completed
  | failed
  | cancelled
  | timeout
deriving Repr, DecidableEq

/-- The mutable fields of `refreshJob` (part_004, lines 26-49).  The
`client` pointer is replaced by the probe result supplied with each
event; `cancelFunc` is modelled by the flag `cancelFuncSet`, its effect
on the bounding context shows up as availability of a `ctxDone` event. -/
structure RefreshJobState where
  accountIDs : List String
  id : String
  startTime : Int
  endTime : Option Int
  status : RefreshStatus
  lastCheck : Option Int
  checkCount : Int
  cancelFuncSet : Bool
  cancelled : Bool
  lastError : Option GoError
  progress : List (String × Bool)
deriving Repr, DecidableEq

/-- The progress-map initialization loop of `newRefreshJob`
(part_004, lines 62-64). -/
def initProgress (accountIDs : List String) : List (String × Bool) :=
  accountIDs.foldl (fun m id => mapSet m id false) []

/-- Embeds `newRefreshJob` (part_004, lines 52-70); `now` stands for
`time.Now()`. -/
def newRefreshJob (accountIDs : List String) (now : Int) : RefreshJobState :=
  { accountIDs := accountIDs
    id := "refresh-" ++ toString now
    startTime := now
    endTime := none
    status := .pending
    lastCheck := none
    checkCount := 0
    cancelFuncSet := false
    cancelled := false
    lastError := none
    progress := initProgress accountIDs }

/-- Embeds `setError` (part_004, lines 301-305). -/
def setError (j : RefreshJobState) (e : GoError) : RefreshJobState :=
  { j with lastError := some e }

/-- Embeds `getError` (part_004, lines 308-312). -/
def getError (j : RefreshJobState) : Option GoError := j.lastError

/-- Truth of `account.Credential != nil && account.Credential.UpdateRequired`. -/
def credentialUpdateRequired (c : Option AccountCredential) : Bool :=
  match c with
  | some cred => cred.updateRequired
  | none => false

/-- The body of the per-account loop of `checkStatus`
(part_004, lines 270-293), threading the progress map and the
`allComplete` accumulator. -/
def updateProgressForAccount (startTime : Int)
    (st : List (String × Bool) × Bool) (a : AccountStatusInfo) :
    List (String × Bool) × Bool :=
  if a.syncing then
    (mapSet st.1 a.id false, false)
  else if credentialUpdateRequired a.credential then
    (mapSet st.1 a.id false, false)
  else
    match a.lastSynced with
    | some ls =>
        if startTime < ls then (mapSet st.1 a.id true, st.2)
        else (mapSet st.1 a.id false, false)
    | none => (mapSet st.1 a.id false, false)

/-- Embeds `checkStatus` (part_004, lines 240-298).  Here `now` stands for the
`time.Now()` stamped into `lastCheck`; the probe round trip is the
supplied `ProbeResult`.  On a query error the wrapped error is returned
and the progress map is untouched. -/
def checkStatus (j : RefreshJobState) (now : Int) (r : ProbeResult) :
    (Bool × Option GoError) × RefreshJobState :=
  let j := { j with lastCheck := some now }
  match r with
  | .err e => ((false, some (.wrapMsg checkStatusWrapMsg e)), j)
  | .ok accounts =>
      let res := accounts.foldl (updateProgressForAccount j.startTime)
        (j.progress, true)
      ((res.2, none), { j with progress := res.1 })

/-- Embeds `Cancel` (part_004, lines 179-194); `now` stands for `time.Now()`.
The `cancelFunc` invocation only affects the bounding context of a
running `Wait`; the state effect is the three unconditional stores.
The returned error is always `nil`. -/
def Cancel (j : RefreshJobState) (now : Int) :
    RefreshJobState × Option GoError :=
  ({ j with cancelled := true, status := .cancelled, endTime := some now },
    none)

/-- Embeds `IsComplete` (part_004, lines 159-176).  The `InProgress` branch
performs one probe round trip, so it receives the environment response
`r`; the other branches ignore it.  The Go `default` branch is
unreachable: the status inductive is exhaustive. -/
def IsComplete (j : RefreshJobState) (now : Int) (r : ProbeResult) :
    (Bool × Option GoError) × RefreshJobState :=
  match j.status with
  | .completed => ((true, none), j)
  | .failed => ((false, getError j), j)
  | .cancelled => ((false, getError j), j)
  | .timeout => ((false, getError j), j)
  | .pending => ((false, none), j)
  | .inProgress => checkStatus j now r

/-- Embeds `GetProgress` (part_004, lines 197-207): a copy of the progress
map; in the pure embedding the value itself. -/
def GetProgress (j : RefreshJobState) : List (String × Bool) := j.progress

/-- Embeds `RefreshJobMetrics` (part_004, lines 315-326). -/
structure RefreshJobMetrics where
  id : String
  status : RefreshStatus
  startTime : Int
  endTime : Option Int
  duration : Int
  accountCount : Nat
  completedCount : Nat
  checkCount : Int
  lastCheck : Option Int
  lastError : Option GoError
deriving Repr, DecidableEq

/-- Embeds `GetMetrics` (part_004, lines 210-237); `now` stands for the
`time.Now()` inside `time.Since`. -/
def GetMetrics (j : RefreshJobState) (now : Int) : RefreshJobMetrics :=
  { id := j.id
    status := j.status
    startTime := j.startTime
    endTime := j.endTime
    duration :=
      match j.endTime with
      | some e => e - j.startTime
      | none => now - j.startTime
    accountCount := j.accountIDs.length
    completedCount := (GetProgress j).countP (fun p => p.2)
    checkCount := j.checkCount
    lastCheck := j.lastCheck
    lastError := getError j }

/-! ### The Wait polling loop

`Wait` (part_004, lines 83-156) blocks on a `select` between the
bounding context becoming done and the ticker firing.  The embedding
drives the loop with an explicit event list: `tick now r` is a ticker
fire whose probe round trip yields `r` at wall-clock time `now`, and
`ctxDone now` is the bounding context ending (by the caller context, the
derived timeout, or the cancel function installed at entry).  A run that
exhausts its events without terminating returns no outcome: `Wait` is
still blocked. -/

/-- Wrap to the range of a Go `int32`, the type of `checkCount`. -/
def wrap32 (z : Int) : Int := (z + 2 ^ 31) % 2 ^ 32 - 2 ^ 31

/-- Embeds `initialInterval` (part_004, line 96), in nanoseconds. -/
def initialInterval : Nat := 1000000000

/-- Embeds `maxInterval` (part_004, line 97), in nanoseconds. -/
def maxInterval : Nat := 5000000000

/-- Lines 148-151: `time.Duration(float64(i) * 1.5)` followed by the
ceiling clamp.  For every interval reachable from `initialInterval` the
float product is exact and the `Duration` conversion truncates, so the
multiplication is `3 * i / 2` on naturals. -/
def growInterval (i : Nat) : Nat :=
  let igrown := 3 * i / 2
  if igrown > maxInterval then maxInterval else igrown

/-- One event presented to the `select` of the polling loop. -/
inductive WaitEvent where
  | tick (now : Int) (r : ProbeResult)
  | ctxDone (now : Int)
deriving Repr, DecidableEq

/-- The value `Wait` returns when it terminates. -/
inductive WaitOutcome where
  | completed
  | failed (e : GoError)
  | cancelledErr
  | timedOut
deriving Repr, DecidableEq

/-- The loop-local state of a running `Wait`: the job, the current
ticker interval, and two ghost counters (probe round trips performed,
and checks that went through the counted non-terminal path). -/
structure WaitState where
  job : RefreshJobState
  interval : Nat
  probeCalls : Nat
  countedChecks : Nat
deriving Repr, DecidableEq

/-- Result of one iteration of the `select` loop. -/
inductive WaitStep where
  | running (s : WaitState)
  | done (o : WaitOutcome) (s : WaitState)
deriving Repr, DecidableEq

/-- One iteration of the `select` loop (part_004, lines 105-155). -/
def waitStep (s : WaitState) (ev : WaitEvent) : WaitStep :=
  match ev with
  | .ctxDone now =>
      if s.job.cancelled then
        .done .cancelledErr { s with job := { s.job with status := .cancelled } }
      else
        .done .timedOut
          { s with job := { s.job with status := .timeout, endTime := some now } }
  | .tick now r =>
      let c := checkStatus s.job now r
      let s1 : WaitState := { s with job := c.2, probeCalls := s.probeCalls + 1 }
      match c.1.2 with
      | some e =>
          let s2 : WaitState := { s1 with job := setError s1.job e }
          if !IsRetryable e then
            .done (.failed e)
              { s2 with job := { s2.job with status := .failed, endTime := some now } }
          else
            .running s2
      | none =>
          if c.1.1 then
            .done .completed
              { s1 with job := { s1.job with status := .completed, endTime := some now } }
          else
            let cc := wrap32 (s1.job.checkCount + 1)
            let s3 : WaitState :=
              { s1 with job := { s1.job with checkCount := cc }
                        countedChecks := s1.countedChecks + 1 }
            if cc % 3 = 0 ∧ s3.interval < maxInterval then
              .running { s3 with interval := growInterval s3.interval }
            else
              .running s3

/-- The entry of `Wait` (part_004, lines 84-103): install the cancel
function, store `InProgress`, arm the ticker at the initial interval. -/
def waitInit (j : RefreshJobState) : WaitState :=
  { job := { j with cancelFuncSet := true, status := .inProgress }
    interval := initialInterval
    probeCalls := 0
    countedChecks := 0 }

/-- The `for`/`select` loop run over an event list. -/
def runWaitAux (s : WaitState) : List WaitEvent → Option WaitOutcome × WaitState
  | [] => (none, s)
  | ev :: evs =>
      match waitStep s ev with
      | .running s' => runWaitAux s' evs
      | .done o s' => (some o, s')

/-- Embeds `Wait` driven by an event list. -/
def Wait (j : RefreshJobState) (evs : List WaitEvent) :
    Option WaitOutcome × WaitState :=
  runWaitAux (waitInit j) evs

/-! ### The job manager -/

/-- The disjunction of part_004, lines 378-379: the four terminal
states. -/
def isTerminalStatus (s : RefreshStatus) : Bool :=
  s == .completed || s == .failed || s == .cancelled || s == .timeout

/-- The removal test of `CleanupCompleted` (part_004, lines 378-380):
terminal status, `endTime` present, and `now.Sub(*endTime) > olderThan`. -/
def cleanupShouldRemove (now olderThan : Int) (j : RefreshJobState) : Bool :=
  isTerminalStatus j.status &&
    match j.endTime with
    | some e => decide (now - e > olderThan)
    | none => false

/-- Embeds `CleanupCompleted` (part_004, lines 369-387): the registry map as an
association list, the delete-while-ranging loop as structural recursion;
returns the surviving registry and the removed count. -/
def CleanupCompleted (jobs : List (String × RefreshJobState))
    (now olderThan : Int) : List (String × RefreshJobState) × Nat :=
  match jobs with
  | [] => ([], 0)
  | (id, job) :: rest =>
      let r := CleanupCompleted rest now olderThan
      if cleanupShouldRemove now olderThan job then (r.1, r.2 + 1)
      else ((id, job) :: r.1, r.2)

/-- Classification of a per-account signal that the update loop of
`checkStatus` treats as complete: not syncing, no credential update
required, and last synced strictly after the job start time. -/
def accountComplete (startTime : Int) (a : AccountStatusInfo) : Bool :=
  !a.syncing && !credentialUpdateRequired a.credential &&
    (match a.lastSynced with
     | some ls => decide (startTime < ls)
     | none => false)

/-- The closed form of the ticker interval after `n` counted
non-terminal checks, in nanoseconds. -/
def intervalClosed (n : Nat) : Nat :=
  min maxInterval (3 ^ (n / 3) * initialInterval / 2 ^ (n / 3))

/-- Events that keep the polling loop running: a tick whose probe errors
retryably, or a tick whose response leaves some account incomplete. -/
def nonTerminalTick (startTime : Int) : WaitEvent → Prop
  | .tick _ (.err e) => IsRetryable e = true
  | .tick _ (.ok accounts) => accounts.all (accountComplete startTime) = false
  | .ctxDone _ => False

/-- Error-free non-terminal events: a tick whose response leaves some
account incomplete. -/
def okNonTerminalTick (startTime : Int) : WaitEvent → Prop
  | .tick _ (.ok accounts) => accounts.all (accountComplete startTime) = false
  | _ => False

/-! ### Lemmas on the Go map model -/

@[simp]
theorem mapKeys_nil : mapKeys [] = [] := rfl

@[simp]
theorem mapKeys_cons (p : String × Bool) (m : List (String × Bool)) :
    mapKeys (p :: m) = p.1 :: mapKeys m := rfl

theorem mapGet_mapSet (m : List (String × Bool)) (k : String) (v : Bool)
    (x : String) :
    mapGet (mapSet m k v) x = if k = x then some v else mapGet m x := by
  induction m with
  | nil => simp [mapSet, mapGet]
  | cons p rest ih =>
      obtain ⟨k', v'⟩ := p
      by_cases hk : k' = k
      · subst hk
        by_cases hx : k' = x <;> simp [mapSet, mapGet, hx]
      · by_cases hx : k' = x
        · subst hx
          have hne : ¬k = k' := fun h => hk (Eq.symm h)
          simp [mapSet, mapGet, hk, hne]
        · simp [mapSet, mapGet, hk, hx, ih]

theorem mem_mapKeys_mapSet (m : List (String × Bool)) (k : String) (v : Bool)
    (x : String) :
    x ∈ mapKeys (mapSet m k v) ↔ x = k ∨ x ∈ mapKeys m := by
  induction m with
  | nil => simp [mapSet]
  | cons p rest ih =>
      obtain ⟨k', v'⟩ := p
      by_cases hk : k' = k
      · subst hk
        simp [mapSet]
      · simp only [mapSet, if_neg hk, mapKeys_cons, List.mem_cons, ih]
        tauto

theorem mapKeys_mapSet_of_mem {m : List (String × Bool)} {k : String}
    (v : Bool) (h : k ∈ mapKeys m) :
    mapKeys (mapSet m k v) = mapKeys m := by
  induction m with
  | nil => simp at h
  | cons p rest ih =>
      obtain ⟨k', v'⟩ := p
      by_cases hk : k' = k
      · subst hk
        simp [mapSet]
      · have h' : k ∈ mapKeys rest := by
          rcases List.mem_cons.mp h with h1 | h1
          · exact absurd (Eq.symm h1) hk
          · exact h1
        simp [mapSet, hk, ih h']

theorem mapGet_initProgressAux (ids : List String) :
    ∀ (m : List (String × Bool)) (x : String),
      mapGet (ids.foldl (fun m i => mapSet m i false) m) x =
        if x ∈ ids then some false else mapGet m x := by
  induction ids with
  | nil => intro m x; simp
  | cons i rest ih =>
      intro m x
      simp only [List.foldl_cons]
      rw [ih, mapGet_mapSet]
      by_cases hx : x ∈ rest
      · simp [hx]
      · by_cases hxi : i = x
        · subst hxi
          simp [hx]
        · have hne : ¬x = i := fun h => hxi (Eq.symm h)
          simp [hx, hxi, hne]

theorem mem_mapKeys_initProgressAux (ids : List String) :
    ∀ (m : List (String × Bool)) (x : String),
      x ∈ mapKeys (ids.foldl (fun m i => mapSet m i false) m) ↔
        x ∈ ids ∨ x ∈ mapKeys m := by
  induction ids with
  | nil => intro m x; simp
  | cons i rest ih =>
      intro m x
      simp only [List.foldl_cons]
      rw [ih]
      simp only [mem_mapKeys_mapSet, List.mem_cons]
      tauto

/-! ### Lemmas on checkStatus -/

theorem updateProgressForAccount_eq (t : Int)
    (st : List (String × Bool) × Bool) (a : AccountStatusInfo) :
    updateProgressForAccount t st a =
      (mapSet st.1 a.id (accountComplete t a),
        st.2 && accountComplete t a) := by
  unfold updateProgressForAccount accountComplete
  rcases a with ⟨id, syncing, lastSynced, credential⟩
  cases syncing
  · cases hcu : credentialUpdateRequired credential
    · cases lastSynced with
      | none => simp [hcu]
      | some ls =>
          by_cases hls : t < ls <;> simp [hcu, hls]
    · simp [hcu]
  · simp

theorem checkFold (t : Int) (accounts : List AccountStatusInfo) :
    ∀ (m : List (String × Bool)) (ac : Bool),
      accounts.foldl (updateProgressForAccount t) (m, ac) =
        (accounts.foldl (fun m a => mapSet m a.id (accountComplete t a)) m,
          ac && accounts.all (accountComplete t)) := by
  induction accounts with
  | nil => intro m ac; simp
  | cons a rest ih =>
      intro m ac
      simp only [List.foldl_cons, List.all_cons]
      rw [updateProgressForAccount_eq, ih]
      simp [Bool.and_assoc]

theorem checkStatus_ok_fst (j : RefreshJobState) (now : Int)
    (accounts : List AccountStatusInfo) :
    (checkStatus j now (.ok accounts)).1 =
      (accounts.all (accountComplete j.startTime), none) := by
  simp [checkStatus, checkFold]

theorem checkStatus_ok_progress (j : RefreshJobState) (now : Int)
    (accounts : List AccountStatusInfo) :
    (checkStatus j now (.ok accounts)).2.progress =
      accounts.foldl
        (fun m a => mapSet m a.id (accountComplete j.startTime a))
        j.progress := by
  simp [checkStatus, checkFold]

theorem checkStatus_err (j : RefreshJobState) (now : Int) (e : GoError) :
    checkStatus j now (.err e) =
      ((false, some (.wrapMsg checkStatusWrapMsg e)),
        { j with lastCheck := some now }) := rfl

theorem checkStatus_preserve (j : RefreshJobState) (now : Int)
    (r : ProbeResult) :
    (checkStatus j now r).2.startTime = j.startTime ∧
    (checkStatus j now r).2.status = j.status ∧
    (checkStatus j now r).2.cancelled = j.cancelled ∧
    (checkStatus j now r).2.endTime = j.endTime ∧
    (checkStatus j now r).2.checkCount = j.checkCount ∧
    (checkStatus j now r).2.lastError = j.lastError ∧
    (checkStatus j now r).2.accountIDs = j.accountIDs := by
  cases r <;> simp [checkStatus]

theorem IsRetryable_wrapMsg (m : String) (e : GoError) :
    IsRetryable (.wrapMsg m e) = IsRetryable e := rfl

/-! ### Engine lemmas on the polling loop -/

theorem waitStep_nonterminal {s : WaitState} {ev : WaitEvent}
    (h : nonTerminalTick s.job.startTime ev) :
    ∃ s', waitStep s ev = .running s' ∧
      s'.job.startTime = s.job.startTime ∧
      s'.job.cancelled = s.job.cancelled ∧
      s'.job.status = s.job.status ∧
      s'.job.endTime = s.job.endTime ∧
      s'.probeCalls = s.probeCalls + 1 := by
  match ev with
  | .ctxDone now => exact absurd h (by simp [nonTerminalTick])
  | .tick now (.err e) =>
      have he : IsRetryable e = true := h
      simp only [waitStep, checkStatus_err, IsRetryable_wrapMsg, he,
        Bool.not_true, Bool.false_eq_true, if_false]
      exact ⟨_, rfl, rfl, rfl, rfl, rfl, rfl⟩
  | .tick now (.ok accounts) =>
      have ha : accounts.all (accountComplete s.job.startTime) = false := h
      simp only [waitStep, checkStatus, checkFold, Bool.true_and, ha,
        Bool.false_eq_true, if_false]
      by_cases hg : wrap32 (s.job.checkCount + 1) % 3 = 0 ∧
          s.interval < maxInterval
      · simp only [if_pos hg]
        exact ⟨_, rfl, rfl, rfl, rfl, rfl, rfl⟩
      · simp only [if_neg hg]
        exact ⟨_, rfl, rfl, rfl, rfl, rfl, rfl⟩

theorem runWaitAux_nonterminal (evs : List WaitEvent) :
    ∀ s : WaitState,
      (∀ ev ∈ evs, nonTerminalTick s.job.startTime ev) →
      (runWaitAux s evs).1 = none ∧
      (runWaitAux s evs).2.job.startTime = s.job.startTime ∧
      (runWaitAux s evs).2.job.cancelled = s.job.cancelled ∧
      (runWaitAux s evs).2.job.status = s.job.status ∧
      (runWaitAux s evs).2.job.endTime = s.job.endTime ∧
      (runWaitAux s evs).2.probeCalls = s.probeCalls + evs.length := by
  induction evs with
  | nil => intro s _; simp [runWaitAux]
  | cons ev evs ih =>
      intro s h
      obtain ⟨s', hstep, h1, h2, h3, h4, h5⟩ :=
        waitStep_nonterminal (h ev (List.mem_cons_self ev evs))
      have hrest : ∀ e ∈ evs, nonTerminalTick s'.job.startTime e := by
        intro e he
        rw [h1]
        exact h e (List.mem_cons_of_mem ev he)
      obtain ⟨g0, g1, g2, g3, g4, g5⟩ := ih s' hrest
      simp only [runWaitAux, hstep]
      refine ⟨g0, ?_, ?_, ?_, ?_, ?_⟩
      · rw [g1, h1]
      · rw [g2, h2]
      · rw [g3, h3]
      · rw [g4, h4]
      · rw [g5, h5]
        simp [List.length_cons]
        omega

theorem waitStep_oknt {s : WaitState} {ev : WaitEvent}
    (h : okNonTerminalTick s.job.startTime ev) :
    ∃ s', waitStep s ev = .running s' ∧
      s'.job.startTime = s.job.startTime ∧
      s'.job.lastError = s.job.lastError := by
  match ev with
  | .ctxDone now => exact absurd h (by simp [okNonTerminalTick])
  | .tick now (.err e) => exact absurd h (by simp [okNonTerminalTick])
  | .tick now (.ok accounts) =>
      have ha : accounts.all (accountComplete s.job.startTime) = false := h
      simp only [waitStep, checkStatus, checkFold, Bool.true_and, ha,
        Bool.false_eq_true, if_false]
      by_cases hg : wrap32 (s.job.checkCount + 1) % 3 = 0 ∧
          s.interval < maxInterval
      · simp only [if_pos hg]
        exact ⟨_, rfl, rfl, rfl⟩
      · simp only [if_neg hg]
        exact ⟨_, rfl, rfl, rfl⟩

theorem runWaitAux_oknt_lastError (evs : List WaitEvent) :
    ∀ s : WaitState,
      (∀ ev ∈ evs, okNonTerminalTick s.job.startTime ev) →
      (runWaitAux s evs).2.job.lastError = s.job.lastError := by
  induction evs with
  | nil => intro s _; simp [runWaitAux]
  | cons ev evs ih =>
      intro s h
      obtain ⟨s', hstep, h1, h2⟩ :=
        waitStep_oknt (h ev (List.mem_cons_self ev evs))
      have hrest : ∀ e ∈ evs, okNonTerminalTick s'.job.startTime e := by
        intro e he
        rw [h1]
        exact h e (List.mem_cons_of_mem ev he)
      simp only [runWaitAux, hstep]
      rw [ih s' hrest, h2]

theorem okNonTerminalTick_mono {t : Int} {ev : WaitEvent}
    (h : okNonTerminalTick t ev) : nonTerminalTick t ev := by
  match ev with
  | .ctxDone now => exact absurd h (by simp [okNonTerminalTick])
  | .tick now (.err e) => exact absurd h (by simp [okNonTerminalTick])
  | .tick now (.ok accounts) => exact h

theorem runWaitAux_append (l1 l2 : List WaitEvent) :
    ∀ s, runWaitAux s (l1 ++ l2) =
      match runWaitAux s l1 with
      | (none, s') => runWaitAux s' l2
      | (some o, s') => (some o, s') := by
  induction l1 with
  | nil => intro s; simp [runWaitAux]
  | cons ev l1 ih =>
      intro s
      simp only [List.cons_append, runWaitAux]
      cases waitStep s ev with
      | running s' => exact ih s'
      | done o s' => rfl

/-! ### The backoff schedule -/

theorem wrap32_wrap32_add_one (z : Int) :
    wrap32 (wrap32 z + 1) = wrap32 (z + 1) := by
  unfold wrap32
  omega

theorem pow54 (k : Nat) (hk : 4 ≤ k) : 5 * 2 ^ k ≤ 3 ^ k := by
  induction k with
  | zero => omega
  | succ m ih =>
      rcases Nat.lt_or_ge m 4 with hm | hm
      · interval_cases m <;> simp_all
      · have h3 := ih hm
        have h2 : (0:Nat) < 3 ^ m := Nat.pos_pow_of_pos m (by omega)
        rw [pow_succ, pow_succ]
        omega

theorem intervalClosed_sat (n : Nat) (h : 12 ≤ n) :
    intervalClosed n = maxInterval := by
  have hk : 4 ≤ n / 3 := by omega
  have h5 : maxInterval ≤ 3 ^ (n / 3) * initialInterval / 2 ^ (n / 3) := by
    rw [Nat.le_div_iff_mul_le (Nat.pos_pow_of_pos _ (by omega))]
    have hp := pow54 (n / 3) hk
    calc maxInterval * 2 ^ (n / 3) = (5 * 2 ^ (n / 3)) * 1000000000 := by
          unfold maxInterval; ring
      _ ≤ 3 ^ (n / 3) * 1000000000 := Nat.mul_le_mul_right _ hp
      _ = 3 ^ (n / 3) * initialInterval := rfl
  unfold intervalClosed
  exact Nat.min_eq_left h5

theorem intervalClosed_succ (n : Nat) :
    intervalClosed (n + 1) =
      if wrap32 ((n : Int) + 1) % 3 = 0 ∧ intervalClosed n < maxInterval
      then growInterval (intervalClosed n)
      else intervalClosed n := by
  rcases Nat.lt_or_ge n 12 with h12 | h12
  · interval_cases n <;> decide
  · have h1 : intervalClosed n = maxInterval := intervalClosed_sat n h12
    have h2 : intervalClosed (n + 1) = maxInterval :=
      intervalClosed_sat (n + 1) (by omega)
    simp [h1, h2]

/-- The backoff invariant carried through the polling loop: the stored
counter is the 32-bit wrap of the number of counted checks, and the
ticker interval is the closed-form schedule of that number. -/
def backoffInv (s : WaitState) : Prop :=
  s.job.checkCount = wrap32 (s.countedChecks : Int) ∧
  s.interval = intervalClosed s.countedChecks

theorem waitStep_backoffInv {s : WaitState} (ev : WaitEvent)
    (h : backoffInv s) :
    (∀ s', waitStep s ev = .running s' → backoffInv s') ∧
    (∀ o s', waitStep s ev = .done o s' → backoffInv s') := by
  obtain ⟨hc, hi⟩ := h
  match ev with
  | .ctxDone now =>
      constructor
      · intro s' hs'
        by_cases hcanc : s.job.cancelled = true <;>
          simp [waitStep, hcanc] at hs'
      · intro o s' hs'
        by_cases hcanc : s.job.cancelled = true <;>
          simp [waitStep, hcanc] at hs' <;>
          · obtain ⟨-, hs'⟩ := hs'
            subst hs'
            exact ⟨hc, hi⟩
  | .tick now (.err e) =>
      constructor
      · intro s' hs'
        by_cases hr : IsRetryable e = true <;>
          simp [waitStep, checkStatus_err, IsRetryable_wrapMsg, hr] at hs'
        subst hs'
        exact ⟨hc, hi⟩
      · intro o s' hs'
        by_cases hr : IsRetryable e = true <;>
          simp [waitStep, checkStatus_err, IsRetryable_wrapMsg, hr] at hs'
        obtain ⟨-, hs'⟩ := hs'
        subst hs'
        exact ⟨hc, hi⟩
  | .tick now (.ok accounts) =>
      by_cases ha : accounts.all (accountComplete s.job.startTime) = true
      · constructor
        · intro s' hs'
          simp [waitStep, checkStatus, checkFold, ha] at hs'
        · intro o s' hs'
          simp [waitStep, checkStatus, checkFold, ha] at hs'
          obtain ⟨-, hs'⟩ := hs'
          subst hs'
          exact ⟨hc, hi⟩
      · rw [Bool.not_eq_true] at ha
        have hcc : wrap32 (s.job.checkCount + 1) =
            wrap32 ((s.countedChecks : Int) + 1) := by
          rw [hc, wrap32_wrap32_add_one]
        by_cases hg : wrap32 (s.job.checkCount + 1) % 3 = 0 ∧
            s.interval < maxInterval
        · constructor
          · intro s' hs'
            simp only [waitStep, checkStatus, checkFold, Bool.true_and, ha,
              Bool.false_eq_true, if_false, if_pos hg,
              WaitStep.running.injEq] at hs'
            subst hs'
            refine ⟨?_, ?_⟩
            · simpa using hcc
            · show growInterval s.interval = intervalClosed (s.countedChecks + 1)
              rw [hi, intervalClosed_succ, if_pos]
              refine ⟨?_, ?_⟩
              · have hg1 := hg.1
                rw [hcc] at hg1
                exact hg1
              · rw [← hi]
                exact hg.2
          · intro o s' hs'
            simp only [waitStep, checkStatus, checkFold, Bool.true_and, ha,
              Bool.false_eq_true, if_false, if_pos hg] at hs'
            exact WaitStep.noConfusion hs'
        · constructor
          · intro s' hs'
            simp only [waitStep, checkStatus, checkFold, Bool.true_and, ha,
              Bool.false_eq_true, if_false, if_neg hg,
              WaitStep.running.injEq] at hs'
            subst hs'
            refine ⟨?_, ?_⟩
            · simpa using hcc
            · show s.interval = intervalClosed (s.countedChecks + 1)
              rw [hi, intervalClosed_succ, if_neg]
              intro hcontra
              apply hg
              refine ⟨?_, ?_⟩
              · rw [hcc]
                exact hcontra.1
              · rw [hi]
                exact hcontra.2
          · intro o s' hs'
            simp only [waitStep, checkStatus, checkFold, Bool.true_and, ha,
              Bool.false_eq_true, if_false, if_neg hg] at hs'
            exact WaitStep.noConfusion hs'

theorem runWaitAux_backoffInv (evs : List WaitEvent) :
    ∀ s : WaitState, backoffInv s → backoffInv (runWaitAux s evs).2 := by
  induction evs with
  | nil => intro s h; exact h
  | cons ev evs ih =>
      intro s h
      obtain ⟨hrun, hdone⟩ := waitStep_backoffInv ev h
      simp only [runWaitAux]
      cases hstep : waitStep s ev with
      | running s' => exact ih s' (hrun s' hstep)
      | done o s' => exact hdone o s' hstep

theorem intervalClosed_cast (n : Nat) :
    (intervalClosed n : ℚ) =
      min ((5 : ℚ) * 10 ^ 9) (10 ^ 9 * (3 / 2 : ℚ) ^ (n / 3)) := by
  rcases Nat.lt_or_ge (n / 3) 4 with hk | hk
  · have hrw : intervalClosed n =
        min maxInterval (3 ^ (n / 3) * initialInterval / 2 ^ (n / 3)) := rfl
    rw [hrw]
    set k := n / 3 with hkdef
    interval_cases k <;> norm_num [maxInterval, initialInterval]
  · have h12 : 12 ≤ n := by omega
    rw [intervalClosed_sat n h12]
    have hp : ((3 : ℚ) / 2) ^ 4 ≤ ((3 : ℚ) / 2) ^ (n / 3) :=
      pow_le_pow_right₀ (by norm_num) hk
    have h54 : (5 : ℚ) * 10 ^ 9 ≤ 10 ^ 9 * (3 / 2 : ℚ) ^ (n / 3) := by
      calc (5 : ℚ) * 10 ^ 9 ≤ 10 ^ 9 * ((3 : ℚ) / 2) ^ 4 := by norm_num
        _ ≤ 10 ^ 9 * ((3 : ℚ) / 2) ^ (n / 3) :=
            mul_le_mul_of_nonneg_left hp (by norm_num)
    rw [min_eq_left h54]
    norm_num [maxInterval]

/-! ### Cleanup characterization -/

theorem cleanupCompleted_eq (now olderThan : Int) :
    ∀ jobs : List (String × RefreshJobState),
      CleanupCompleted jobs now olderThan =
        (jobs.filter (fun p => !cleanupShouldRemove now olderThan p.2),
          (jobs.filter (fun p => cleanupShouldRemove now olderThan p.2)).length) := by
  intro jobs
  induction jobs with
  | nil => simp [CleanupCompleted]
  | cons p rest ih =>
      obtain ⟨id, job⟩ := p
      simp only [CleanupCompleted, ih]
      by_cases hr : cleanupShouldRemove now olderThan job = true <;>
        simp [List.filter_cons, hr]

theorem cleanupShouldRemove_iff (now olderThan : Int) (j : RefreshJobState) :
    cleanupShouldRemove now olderThan j = true ↔
      (isTerminalStatus j.status = true ∧
        ∃ e, j.endTime = some e ∧ now - e > olderThan) := by
  unfold cleanupShouldRemove
  cases het : j.endTime with
  | none => simp
  | some e => simp

instance (t : Int) (ev : WaitEvent) : Decidable (nonTerminalTick t ev) :=
  match ev with
  | .tick _ (.err e) => inferInstanceAs (Decidable (IsRetryable e = true))
  | .tick _ (.ok accounts) =>
      inferInstanceAs (Decidable (accounts.all (accountComplete t) = false))
  | .ctxDone _ => inferInstanceAs (Decidable False)

instance (t : Int) (ev : WaitEvent) : Decidable (okNonTerminalTick t ev) :=
  match ev with
  | .tick _ (.err _) => inferInstanceAs (Decidable False)
  | .tick _ (.ok accounts) =>
      inferInstanceAs (Decidable (accounts.all (accountComplete t) = false))
  | .ctxDone _ => inferInstanceAs (Decidable False)

theorem mapKeys_foldl_mapSet (f : AccountStatusInfo → Bool)
    (accounts : List AccountStatusInfo) :
    ∀ m : List (String × Bool),
      (∀ a ∈ accounts, a.id ∈ mapKeys m) →
      mapKeys (accounts.foldl (fun m a => mapSet m a.id (f a)) m) =
        mapKeys m := by
  induction accounts with
  | nil => intro m _; rfl
  | cons a rest ih =>
      intro m h
      have ha : a.id ∈ mapKeys m := h a (List.mem_cons_self a rest)
      have hkeys := mapKeys_mapSet_of_mem (m := m) (f a) ha
      simp only [List.foldl_cons]
      rw [ih (mapSet m a.id (f a))]
      · exact hkeys
      · intro b hb
        rw [hkeys]
        exact h b (List.mem_cons_of_mem a hb)

/-- An account the probe reports as still syncing. -/
def syncingAccount (i : String) : AccountStatusInfo := ⟨i, true, none, none⟩

/-- An account the probe reports as idle with a last-synced stamp `t`. -/
def syncedAccount (i : String) (t : Int) : AccountStatusInfo :=
  ⟨i, false, some t, none⟩

/-! ### Claims -/

/-- Claim C1, counterexample.  The claim says a terminal status is never
changed and `endTime` never re-assigned; but `Cancel` on a job that is
already `Completed` with `endTime` 5 overwrites the status with
`Cancelled`, re-stamps `endTime` to 9, and returns nil, and entering
`Wait` on the same completed job moves the status to `InProgress`. -/
theorem c1_terminal_not_sticky_cex :
    (Cancel { newRefreshJob ["a"] 0 with
        status := .completed, endTime := some 5 } 9).1.status =
      .cancelled ∧
    (Cancel { newRefreshJob ["a"] 0 with
        status := .completed, endTime := some 5 } 9).1.endTime = some 9 ∧
    (Cancel { newRefreshJob ["a"] 0 with
        status := .completed, endTime := some 5 } 9).2 = none ∧
    (Wait { newRefreshJob ["a"] 0 with
        status := .completed, endTime := some 5 } []).2.job.status =
      .inProgress := by
  decide

/-- Claim C1, amended: terminal states are not sticky.  `Cancel` on any
job, terminal or not, unconditionally stores `Cancelled`, re-stamps
`endTime` with the current time and returns nil, and the entry of `Wait`
unconditionally stores `InProgress`, also on a job whose status is
terminal. -/
theorem c1_amended_terminal_not_sticky (j : RefreshJobState) (now : Int) :
    (Cancel j now).1.status = .cancelled ∧
    (Cancel j now).1.endTime = some now ∧
    (Cancel j now).2 = none ∧
    (waitInit j).job.status = .inProgress :=
  ⟨rfl, rfl, rfl, rfl⟩

/-- Claim C3, counterexample.  The claim says `checkStatus` returns true
iff every ID in the job itemIDs is marked complete; but on a probe
response covering only `"a"` of the two tracked accounts, `checkStatus`
returns true while the tracked account `"b"` is still marked incomplete
in the progress map. -/
theorem c3_response_subset_cex :
    (checkStatus (newRefreshJob ["a", "b"] 0) 3
        (.ok [syncedAccount "a" 5])).1.1 = true ∧
    mapGet (checkStatus (newRefreshJob ["a", "b"] 0) 3
        (.ok [syncedAccount "a" 5])).2.progress "b" = some false ∧
    "b" ∈ (newRefreshJob ["a", "b"] 0).accountIDs := by
  decide

/-- Claim C3, amended: the boolean returned by `checkStatus` is the
conjunction of the per-item classifications over the accounts of the
probe response (not over the job itemIDs): it returns true iff every
account row in the response is classified complete, and it returns a nil
error. -/
theorem c3_amended_allComplete_over_response (j : RefreshJobState)
    (now : Int) (accounts : List AccountStatusInfo) :
    (checkStatus j now (.ok accounts)).1.2 = none ∧
    ((checkStatus j now (.ok accounts)).1.1 = true ↔
      ∀ a ∈ accounts, accountComplete j.startTime a = true) := by
  have h := checkStatus_ok_fst j now accounts
  constructor
  · rw [h]
  · rw [h]
    simp [List.all_eq_true]

/-- Claim C4, counterexample.  The claim says an item whose last-synced
timestamp is at or after the job startTime (with no sync in progress and
no re-authentication pending) is classified complete; but for an account
whose last-synced timestamp equals the startTime exactly, the code
(`LastSynced.After`, strict) classifies it as not complete. -/
theorem c4_at_start_time_cex :
    (syncedAccount "a" 0).syncing = false ∧
    credentialUpdateRequired (syncedAccount "a" 0).credential = false ∧
    (syncedAccount "a" 0).lastSynced =
      some (newRefreshJob ["a"] 0).startTime ∧
    mapGet (checkStatus (newRefreshJob ["a"] 0) 1
        (.ok [syncedAccount "a" 0])).2.progress "a" = some false := by
  decide

/-- Claim C4, amended: `checkStatus` classifies an item as complete iff
the provider reports no sync in progress, no pending re-authentication
requirement, and a last-synced timestamp strictly after the job
startTime; an item with no last-synced timestamp, or one whose timestamp
is at or before the startTime, is classified not complete. -/
theorem c4_amended_strictly_after (j : RefreshJobState) (now : Int)
    (a : AccountStatusInfo) :
    mapGet (checkStatus j now (.ok [a])).2.progress a.id =
      some (accountComplete j.startTime a) ∧
    (accountComplete j.startTime a = true ↔
      (a.syncing = false ∧ credentialUpdateRequired a.credential = false ∧
        ∃ ls, a.lastSynced = some ls ∧ j.startTime < ls)) := by
  constructor
  · rw [checkStatus_ok_progress]
    simp [mapGet_mapSet]
  · cases hls : a.lastSynced with
    | none => simp [accountComplete, hls]
    | some ls =>
        simp [accountComplete, hls]
        tauto

/-- Claim C9, counterexample.  The claim says no probe response can add
a key to the progress map; but a response carrying an account ID that is
not among the job itemIDs inserts that ID as a fresh key. -/
theorem c9_foreign_id_cex :
    mapKeys (newRefreshJob ["a"] 0).progress = ["a"] ∧
    mapKeys (checkStatus (newRefreshJob ["a"] 0) 1
        (.ok [syncingAccount "b"])).2.progress = ["a", "b"] ∧
    ¬("b" ∈ (newRefreshJob ["a"] 0).accountIDs) := by
  decide

/-- Claim C9, amended: construction populates the progress map with
exactly the itemIDs, all mapped to false, and `checkStatus` preserves
the key set provided every account ID in the probe response is already a
key (a response mentioning an untracked ID inserts it, as the
counterexample shows). -/
theorem c9_amended_progress_keys (ids : List String) (now : Int) :
    (∀ x, x ∈ mapKeys (newRefreshJob ids now).progress ↔ x ∈ ids) ∧
    (∀ x ∈ ids, mapGet (newRefreshJob ids now).progress x = some false) ∧
    (∀ (j : RefreshJobState) (now2 : Int)
        (accounts : List AccountStatusInfo),
      (∀ a ∈ accounts, a.id ∈ mapKeys j.progress) →
      mapKeys (checkStatus j now2 (.ok accounts)).2.progress =
        mapKeys j.progress) := by
  refine ⟨?_, ?_, ?_⟩
  · intro x
    show x ∈ mapKeys (initProgress ids) ↔ x ∈ ids
    unfold initProgress
    rw [mem_mapKeys_initProgressAux]
    simp
  · intro x hx
    show mapGet (initProgress ids) x = some false
    unfold initProgress
    rw [mapGet_initProgressAux]
    simp [hx]
  · intro j now2 accounts h
    rw [checkStatus_ok_progress]
    exact mapKeys_foldl_mapSet _ accounts j.progress h

/-- Claim C9, witness for the amended theorem: on a job over `["a"]`, the
key set is `{"a"}` mapped to false, and a response whose only account ID
is the tracked `"a"` leaves the key set unchanged. -/
theorem c9_amended_progress_keys_witness :
    ("a" ∈ mapKeys (newRefreshJob ["a"] 0).progress ↔ "a" ∈ ["a"]) ∧
    mapGet (newRefreshJob ["a"] 0).progress "a" = some false ∧
    mapKeys (checkStatus (newRefreshJob ["a"] 0) 1
        (.ok [syncingAccount "a"])).2.progress =
      mapKeys (newRefreshJob ["a"] 0).progress := by
  have h := c9_amended_progress_keys ["a"] 0
  exact ⟨h.1 "a", h.2.1 "a" (by decide),
    h.2.2 (newRefreshJob ["a"] 0) 1 [syncingAccount "a"] (by decide)⟩

/-- The event list of the C6 scenario: three ticks over the job on
items `["a", "b"]`, whose probe rounds yield `(false, nil)`,
`(false, nil)`, `(true, nil)`. -/
def c6events : List WaitEvent :=
  [.tick 1 (.ok [syncingAccount "a", syncingAccount "b"]),
   .tick 2 (.ok [syncingAccount "a", syncingAccount "b"]),
   .tick 3 (.ok [syncedAccount "a" 4, syncedAccount "b" 4])]

/-- The C6 scenario run. -/
def c6run : Option WaitOutcome × WaitState :=
  Wait (newRefreshJob ["a", "b"] 0) c6events

/-- Claim C6, counterexample.  On the prescribed probe sequence `Wait`
performs three probe round trips and returns nil with status
`Completed`, but the metrics check counter reads 2, not the claimed 3:
the counter is incremented only after a non-terminal error-free check,
so the final completing check is never counted. -/
theorem c6_checkcount_cex :
    c6run.1 = some .completed ∧
    c6run.2.probeCalls = 3 ∧
    (GetMetrics c6run.2.job 10).checkCount = 2 ∧
    ¬((GetMetrics c6run.2.job 10).checkCount = 3) := by
  decide

/-- Claim C6, amended: for the job over `["a", "b"]` with probe check
sequence `(false, nil)`, `(false, nil)`, `(true, nil)`, `Wait` returns
nil, the final status is `Completed`, `GetProgress` maps both items to
true, and `checkCount` equals 2 — the counter records only the
non-terminal error-free checks, so the third (completing) check is not
counted. -/
theorem c6_amended_scenario :
    c6run.1 = some .completed ∧
    c6run.2.job.status = .completed ∧
    (GetMetrics c6run.2.job 10).checkCount = 2 ∧
    mapGet (GetProgress c6run.2.job) "a" = some true ∧
    mapGet (GetProgress c6run.2.job) "b" = some true := by
  decide

/-- Claim C8, confirmed: `CleanupCompleted` keeps exactly the jobs that
do not satisfy (terminal status ∧ `endTime` set ∧ strictly older than
the threshold), returns the number of removed entries, and the removal
test is exactly that condition — so a non-terminal job or one with no
`endTime` is never removed, and a terminal job with a recent `endTime`
is retained. -/
theorem c8_cleanup_exact (jobs : List (String × RefreshJobState))
    (now olderThan : Int) :
    (∀ p, p ∈ (CleanupCompleted jobs now olderThan).1 ↔
      (p ∈ jobs ∧ ¬(isTerminalStatus p.2.status = true ∧
        ∃ e, p.2.endTime = some e ∧ now - e > olderThan))) ∧
    (CleanupCompleted jobs now olderThan).2 =
      (jobs.filter (fun p => cleanupShouldRemove now olderThan p.2)).length ∧
    (∀ jj : RefreshJobState,
      cleanupShouldRemove now olderThan jj = true ↔
        (isTerminalStatus jj.status = true ∧
          ∃ e, jj.endTime = some e ∧ now - e > olderThan)) := by
  have he := cleanupCompleted_eq now olderThan jobs
  have h1 : (CleanupCompleted jobs now olderThan).1 =
      jobs.filter (fun p => !cleanupShouldRemove now olderThan p.2) := by
    rw [he]
  have h2 : (CleanupCompleted jobs now olderThan).2 =
      (jobs.filter (fun p => cleanupShouldRemove now olderThan p.2)).length := by
    rw [he]
  refine ⟨?_, h2, cleanupShouldRemove_iff now olderThan⟩
  intro p
  rw [h1, List.mem_filter]
  have hb : ((!cleanupShouldRemove now olderThan p.2) = true ↔
      ¬(cleanupShouldRemove now olderThan p.2 = true)) := by
    cases cleanupShouldRemove now olderThan p.2 <;> simp
  rw [hb, cleanupShouldRemove_iff]

/-- Claim C2, counterexample.  `Cancel` called before `Wait` does not
make the subsequent `Wait` end `Cancelled` without probing: the
cancelled flag is only consulted when the bounding context is done, and
a prior `Cancel` does not cancel that context (the cancel function is
installed only at `Wait` entry).  Here the job was cancelled before
`Wait`, yet one ticker fire with a completing probe response makes
`Wait` perform a probe round trip and return nil with status
`Completed`. -/
theorem c2_cancel_before_wait_cex :
    (Cancel (newRefreshJob ["a"] 0) 1).1.cancelled = true ∧
    (Wait (Cancel (newRefreshJob ["a"] 0) 1).1
        [.tick 2 (.ok [syncedAccount "a" 3])]).1 = some .completed ∧
    (Wait (Cancel (newRefreshJob ["a"] 0) 1).1
        [.tick 2 (.ok [syncedAccount "a" 3])]).2.job.status = .completed ∧
    (Wait (Cancel (newRefreshJob ["a"] 0) 1).1
        [.tick 2 (.ok [syncedAccount "a" 3])]).2.probeCalls = 1 := by
  decide

/-- Claim C2, amended: a `Cancel` issued before `Wait` does not
short-circuit the polling loop.  `Wait` re-enters `InProgress` and
probes on every tick; the cancelled flag is consulted only when the
bounding context becomes done, at which point `Wait` returns the
cancellation error with terminal status `Cancelled`.  So for a
pre-cancelled job, if every tick before the context ends is
non-terminal, `Wait` ends `Cancelled` having probed once per tick — and
(per the counterexample) a completing probe before the context ends
instead ends the job `Completed`. -/
theorem c2_amended_cancel_before_wait (j : RefreshJobState)
    (evs : List WaitEvent) (t : Int)
    (hc : j.cancelled = true)
    (h : ∀ ev ∈ evs, nonTerminalTick j.startTime ev) :
    (Wait j (evs ++ [.ctxDone t])).1 = some .cancelledErr ∧
    (Wait j (evs ++ [.ctxDone t])).2.job.status = .cancelled ∧
    (Wait j (evs ++ [.ctxDone t])).2.probeCalls = evs.length := by
  have hsts : (waitInit j).job.startTime = j.startTime := rfl
  obtain ⟨h0, h1, h2, h3, h4, h5⟩ :=
    runWaitAux_nonterminal evs (waitInit j) (by rw [hsts]; exact h)
  show (runWaitAux (waitInit j) (evs ++ [.ctxDone t])).1 = _ ∧
    (runWaitAux (waitInit j) (evs ++ [.ctxDone t])).2.job.status = _ ∧
    (runWaitAux (waitInit j) (evs ++ [.ctxDone t])).2.probeCalls = _
  rw [runWaitAux_append]
  rcases hrw : runWaitAux (waitInit j) evs with ⟨o, s'⟩
  rw [hrw] at h0 h2 h5
  have ho : o = none := h0
  subst ho
  have hcanc : s'.job.cancelled = true := by
    have h2' : s'.job.cancelled = j.cancelled := h2
    rw [h2', hc]
  have h5' : s'.probeCalls = evs.length := by
    have h5'' : s'.probeCalls = (waitInit j).probeCalls + evs.length := h5
    simpa [waitInit] using h5''
  simp only [runWaitAux, waitStep, hcanc, if_true]
  exact ⟨trivial, trivial, h5'⟩

/-- Claim C2, witness for the amended theorem: a job cancelled before
`Wait`, one non-terminal tick, then the context ends; `Wait` returns the
cancellation error with status `Cancelled` after exactly one probe round
trip. -/
theorem c2_amended_cancel_before_wait_witness :
    (Wait (Cancel (newRefreshJob ["a"] 0) 1).1
        ([.tick 2 (.ok [syncingAccount "a"])] ++ [.ctxDone 5])).1 =
      some .cancelledErr ∧
    (Wait (Cancel (newRefreshJob ["a"] 0) 1).1
        ([.tick 2 (.ok [syncingAccount "a"])] ++ [.ctxDone 5])).2.job.status =
      .cancelled ∧
    (Wait (Cancel (newRefreshJob ["a"] 0) 1).1
        ([.tick 2 (.ok [syncingAccount "a"])] ++ [.ctxDone 5])).2.probeCalls =
      [WaitEvent.tick 2 (.ok [syncingAccount "a"])].length :=
  c2_amended_cancel_before_wait (Cancel (newRefreshJob ["a"] 0) 1).1
    [.tick 2 (.ok [syncingAccount "a"])] 5 (by decide) (by decide)

/-- Claim C7, confirmed: the polling interval starts at one second and
is, at every point of any `Wait` run on a fresh job, the pure function
`min (5 s) (1 s * 1.5 ^ (n / 3))` of the number `n` of counted
non-terminal checks, never exceeding the five-second ceiling.  The
stored `int32` counter equals the 32-bit wrap of `n`; growth only ever
fires below the ceiling, where the counter has not wrapped. -/
theorem c7_backoff_pure_function (j : RefreshJobState)
    (evs : List WaitEvent) (h0 : j.checkCount = 0) :
    (waitInit j).interval = initialInterval ∧
    ((Wait j evs).2.interval : ℚ) =
      min ((5 : ℚ) * 10 ^ 9)
        (10 ^ 9 * (3 / 2 : ℚ) ^ ((Wait j evs).2.countedChecks / 3)) ∧
    (Wait j evs).2.interval ≤ maxInterval := by
  have hinv : backoffInv (waitInit j) := by
    refine ⟨?_, ?_⟩
    · show j.checkCount = wrap32 ((0 : Nat) : Int)
      rw [h0]
      decide
    · show initialInterval = intervalClosed 0
      decide
  obtain ⟨hc, hi⟩ := runWaitAux_backoffInv evs (waitInit j) hinv
  refine ⟨rfl, ?_, ?_⟩
  · show ((runWaitAux (waitInit j) evs).2.interval : ℚ) =
      min ((5 : ℚ) * 10 ^ 9)
        (10 ^ 9 * (3 / 2 : ℚ) ^
          ((runWaitAux (waitInit j) evs).2.countedChecks / 3))
    rw [hi, intervalClosed_cast]
  · show (runWaitAux (waitInit j) evs).2.interval ≤ maxInterval
    rw [hi]
    exact Nat.min_le_left _ _

/-- The event list of the C7 witness: three non-terminal ticks. -/
def c7events : List WaitEvent :=
  [.tick 1 (.ok [syncingAccount "a"]),
   .tick 2 (.ok [syncingAccount "a"]),
   .tick 3 (.ok [syncingAccount "a"])]

/-- Claim C7, witness: a fresh job over `["a"]` and three non-terminal
ticks; the interval after the run is `1.5 s = min (5 s) (1 s * 1.5 ^ 1)`
and stays below the ceiling. -/
theorem c7_backoff_pure_function_witness :
    (waitInit (newRefreshJob ["a"] 0)).interval = initialInterval ∧
    ((Wait (newRefreshJob ["a"] 0) c7events).2.interval : ℚ) =
      min ((5 : ℚ) * 10 ^ 9)
        (10 ^ 9 * (3 / 2 : ℚ) ^
          ((Wait (newRefreshJob ["a"] 0) c7events).2.countedChecks / 3)) ∧
    (Wait (newRefreshJob ["a"] 0) c7events).2.interval ≤ maxInterval :=
  c7_backoff_pure_function (newRefreshJob ["a"] 0) c7events rfl

theorem IsRetryable_iff (e : GoError) :
    IsRetryable e = true ↔
      (goErrorIs e "rate limited" = true ∨
       goErrorIs e "request timeout" = true ∨
       goErrorIs e "server error" = true ∨
       ∃ c sc, goErrorAsAPI e = some (c, sc) ∧ (500 ≤ sc ∨ sc = 429)) := by
  unfold IsRetryable
  by_cases h1 : (goErrorIs e "rate limited" || goErrorIs e "request timeout"
      || goErrorIs e "server error") = true
  · rw [if_pos h1]
    simp only [Bool.or_eq_true] at h1
    constructor
    · intro _
      tauto
    · intro _
      rfl
  · rw [if_neg h1]
    simp only [Bool.or_eq_true] at h1
    push_neg at h1
    obtain ⟨⟨ha, hb⟩, hc⟩ := h1
    cases hm : goErrorAsAPI e with
    | none => simp [hm, ha, hb, hc]
    | some p =>
        obtain ⟨c, sc⟩ := p
        simp only [hm, ha, hb, hc, Bool.false_eq_true, false_or,
          Option.some.injEq, Prod.mk.injEq, Bool.or_eq_true,
          decide_eq_true_eq, ge_iff_le, beq_iff_eq]
        constructor
        · intro hsc
          exact ⟨c, sc, ⟨rfl, rfl⟩, hsc⟩
        · rintro ⟨c', sc', ⟨-, rfl⟩, hsc⟩
          exact hsc

/-- Claim C5, confirmed: when a probe check errors during the polling
loop, the (wrapped) error is recorded in `lastError`; if it is not
retryable — `IsRetryable` holding exactly for rate limiting, transient
timeout, server errors, and API errors with HTTP status >= 500 or
429, a characterization the last conjunct proves — `Wait` moves the job
to `Failed`, stamps `endTime`, and returns that error with no further
checks (one probe round trip past the prefix, whatever events follow);
if it is retryable, the loop is still running afterwards: status stays
`InProgress`, `endTime` is untouched, and the error sits in
`lastError`. -/
theorem c5_probe_error_handling (j : RefreshJobState)
    (pre : List WaitEvent) (t : Int) (e : GoError) (post : List WaitEvent)
    (hpre : ∀ ev ∈ pre, nonTerminalTick j.startTime ev) :
    (IsRetryable e = false →
      (Wait j (pre ++ .tick t (.err e) :: post)).1 =
        some (.failed (.wrapMsg checkStatusWrapMsg e)) ∧
      (Wait j (pre ++ .tick t (.err e) :: post)).2.job.status = .failed ∧
      (Wait j (pre ++ .tick t (.err e) :: post)).2.job.endTime = some t ∧
      (Wait j (pre ++ .tick t (.err e) :: post)).2.job.lastError =
        some (.wrapMsg checkStatusWrapMsg e) ∧
      (Wait j (pre ++ .tick t (.err e) :: post)).2.probeCalls =
        pre.length + 1) ∧
    (IsRetryable e = true →
      (Wait j (pre ++ [.tick t (.err e)])).1 = none ∧
      (Wait j (pre ++ [.tick t (.err e)])).2.job.status = .inProgress ∧
      (Wait j (pre ++ [.tick t (.err e)])).2.job.endTime = j.endTime ∧
      (Wait j (pre ++ [.tick t (.err e)])).2.job.lastError =
        some (.wrapMsg checkStatusWrapMsg e) ∧
      (Wait j (pre ++ [.tick t (.err e)])).2.probeCalls =
        pre.length + 1) ∧
    (IsRetryable e = true ↔
      (goErrorIs e "rate limited" = true ∨
       goErrorIs e "request timeout" = true ∨
       goErrorIs e "server error" = true ∨
       ∃ c sc, goErrorAsAPI e = some (c, sc) ∧ (500 ≤ sc ∨ sc = 429))) := by
  have hsts : (waitInit j).job.startTime = j.startTime := rfl
  obtain ⟨h0, h1, h2, h3, h4, h5⟩ :=
    runWaitAux_nonterminal pre (waitInit j) (by rw [hsts]; exact hpre)
  rcases hrw : runWaitAux (waitInit j) pre with ⟨o, s'⟩
  rw [hrw] at h0 h3 h4 h5
  have ho : o = none := h0
  subst ho
  have h3' : s'.job.status = .inProgress := h3
  have h4' : s'.job.endTime = j.endTime := h4
  have h5' : s'.probeCalls = pre.length := by
    have h5'' : s'.probeCalls = (waitInit j).probeCalls + pre.length := h5
    simpa [waitInit] using h5''
  refine ⟨?_, ?_, IsRetryable_iff e⟩
  · intro hre
    show (runWaitAux (waitInit j) (pre ++ .tick t (.err e) :: post)).1 = _ ∧
      (runWaitAux (waitInit j) (pre ++ .tick t (.err e) :: post)).2.job.status = _ ∧
      (runWaitAux (waitInit j) (pre ++ .tick t (.err e) :: post)).2.job.endTime = _ ∧
      (runWaitAux (waitInit j) (pre ++ .tick t (.err e) :: post)).2.job.lastError = _ ∧
      (runWaitAux (waitInit j) (pre ++ .tick t (.err e) :: post)).2.probeCalls = _
    rw [runWaitAux_append, hrw]
    simp only [runWaitAux, waitStep, checkStatus_err, IsRetryable_wrapMsg,
      hre, Bool.not_false, if_true, setError]
    refine ⟨trivial, trivial, trivial, trivial, ?_⟩
    rw [h5']
  · intro hre
    show (runWaitAux (waitInit j) (pre ++ [.tick t (.err e)])).1 = _ ∧
      (runWaitAux (waitInit j) (pre ++ [.tick t (.err e)])).2.job.status = _ ∧
      (runWaitAux (waitInit j) (pre ++ [.tick t (.err e)])).2.job.endTime = _ ∧
      (runWaitAux (waitInit j) (pre ++ [.tick t (.err e)])).2.job.lastError = _ ∧
      (runWaitAux (waitInit j) (pre ++ [.tick t (.err e)])).2.probeCalls = _
    rw [runWaitAux_append, hrw]
    simp only [runWaitAux, waitStep, checkStatus_err, IsRetryable_wrapMsg,
      hre, Bool.not_true, Bool.false_eq_true, if_false, setError]
    exact ⟨trivial, h3', h4', trivial, by rw [h5']⟩

/-- Claim C5, witness: on a fresh job, a fatal probe error (a plain
`invalid request` sentinel) makes `Wait` fail immediately after one
probe round trip even with a pending later tick, while a retryable probe
error (the rate-limited sentinel) leaves the loop running with the error
recorded. -/
theorem c5_probe_error_handling_witness :
    ((Wait (newRefreshJob ["a"] 0)
        ([] ++ .tick 3 (.err (.sentinel "invalid request")) ::
          [.tick 9 (.ok [syncedAccount "a" 4])])).1 =
      some (.failed (.wrapMsg checkStatusWrapMsg
        (.sentinel "invalid request"))) ∧
    (Wait (newRefreshJob ["a"] 0)
        ([] ++ .tick 3 (.err (.sentinel "invalid request")) ::
          [.tick 9 (.ok [syncedAccount "a" 4])])).2.probeCalls = 1) ∧
    ((Wait (newRefreshJob ["a"] 0)
        ([] ++ [.tick 3 (.err (.sentinel "rate limited"))])).1 = none ∧
    (Wait (newRefreshJob ["a"] 0)
        ([] ++ [.tick 3 (.err (.sentinel "rate limited"))])).2.job.lastError =
      some (.wrapMsg checkStatusWrapMsg (.sentinel "rate limited"))) := by
  have hfatal := c5_probe_error_handling (newRefreshJob ["a"] 0) [] 3
    (.sentinel "invalid request") [.tick 9 (.ok [syncedAccount "a" 4])]
    (by decide)
  have hretry := c5_probe_error_handling (newRefreshJob ["a"] 0) [] 3
    (.sentinel "rate limited") [] (by decide)
  obtain ⟨f1, -, -, -, f5⟩ := hfatal.1 (by decide)
  obtain ⟨r1, -, -, r4, -⟩ := hretry.2.1 (by decide)
  exact ⟨⟨f1, by simpa using f5⟩, ⟨r1, r4⟩⟩

/-- Claim C10, confirmed: when `Wait` ends by its deadline with the
cancelled flag unset and an error-free probe history, the timeout is
only returned (outcome `timedOut`, modelling `ErrRefreshTimeout`): the
final status is `TimedOut`, `endTime` is stamped, `lastError` stays nil,
`GetMetrics` reports a nil last error, and `IsComplete` answers
`(false, nil)` — the same observable answer `IsComplete` gives for a
freshly constructed, still-pending job. -/
theorem c10_timeout_error_not_recorded (ids : List String) (now t : Int)
    (evs : List WaitEvent)
    (h : ∀ ev ∈ evs, okNonTerminalTick (newRefreshJob ids now).startTime ev) :
    (Wait (newRefreshJob ids now) (evs ++ [.ctxDone t])).1 =
      some .timedOut ∧
    (Wait (newRefreshJob ids now) (evs ++ [.ctxDone t])).2.job.status =
      .timeout ∧
    (Wait (newRefreshJob ids now) (evs ++ [.ctxDone t])).2.job.endTime =
      some t ∧
    (Wait (newRefreshJob ids now) (evs ++ [.ctxDone t])).2.job.lastError =
      none ∧
    (GetMetrics (Wait (newRefreshJob ids now)
        (evs ++ [.ctxDone t])).2.job t).lastError = none ∧
    (IsComplete (Wait (newRefreshJob ids now)
        (evs ++ [.ctxDone t])).2.job t (.ok [])).1 = (false, none) ∧
    (IsComplete (newRefreshJob ids now) t (.ok [])).1 = (false, none) := by
  have hsts : (waitInit (newRefreshJob ids now)).job.startTime =
      (newRefreshJob ids now).startTime := rfl
  obtain ⟨h0, h1, h2, h3, h4, h5⟩ :=
    runWaitAux_nonterminal evs (waitInit (newRefreshJob ids now))
      (by rw [hsts]; intro ev hev; exact okNonTerminalTick_mono (h ev hev))
  have hle := runWaitAux_oknt_lastError evs (waitInit (newRefreshJob ids now))
    (by rw [hsts]; exact h)
  show (runWaitAux (waitInit (newRefreshJob ids now)) (evs ++ [.ctxDone t])).1 = _ ∧
    (runWaitAux (waitInit (newRefreshJob ids now)) (evs ++ [.ctxDone t])).2.job.status = _ ∧
    (runWaitAux (waitInit (newRefreshJob ids now)) (evs ++ [.ctxDone t])).2.job.endTime = _ ∧
    (runWaitAux (waitInit (newRefreshJob ids now)) (evs ++ [.ctxDone t])).2.job.lastError = _ ∧
    (GetMetrics (runWaitAux (waitInit (newRefreshJob ids now))
      (evs ++ [.ctxDone t])).2.job t).lastError = _ ∧
    (IsComplete (runWaitAux (waitInit (newRefreshJob ids now))
      (evs ++ [.ctxDone t])).2.job t (.ok [])).1 = _ ∧
    (IsComplete (newRefreshJob ids now) t (.ok [])).1 = _
  rw [runWaitAux_append]
  rcases hrw : runWaitAux (waitInit (newRefreshJob ids now)) evs with ⟨o, s'⟩
  rw [hrw] at h0 h2 hle
  have ho : o = none := h0
  subst ho
  have hcanc : s'.job.cancelled = false := h2
  have hlast : s'.job.lastError = none := hle
  simp only [runWaitAux, waitStep, hcanc, Bool.false_eq_true, if_false]
  refine ⟨trivial, trivial, trivial, hlast, ?_, ?_, rfl⟩
  · show getError { s'.job with status := .timeout, endTime := some t } = none
    simpa [getError] using hlast
  · show (IsComplete { s'.job with status := .timeout, endTime := some t }
      t (.ok [])).1 = (false, none)
    simp [IsComplete, getError, hlast]

/-- Claim C10, witness: a fresh job over `["a"]`, one error-free
non-terminal tick, then the deadline; `Wait` times out with no recorded
error and `IsComplete` answers `(false, nil)` both for the timed-out job
and for a fresh pending job. -/
theorem c10_timeout_error_not_recorded_witness :
    (Wait (newRefreshJob ["a"] 0)
        ([.tick 1 (.ok [syncingAccount "a"])] ++ [.ctxDone 7])).1 =
      some .timedOut ∧
    (Wait (newRefreshJob ["a"] 0)
        ([.tick 1 (.ok [syncingAccount "a"])] ++ [.ctxDone 7])).2.job.lastError =
      none ∧
    (IsComplete (Wait (newRefreshJob ["a"] 0)
        ([.tick 1 (.ok [syncingAccount "a"])] ++ [.ctxDone 7])).2.job 7
      (.ok [])).1 = (false, none) ∧
    (IsComplete (newRefreshJob ["a"] 0) 7 (.ok [])).1 = (false, none) := by
  have hw := c10_timeout_error_not_recorded ["a"] 0 7
    [.tick 1 (.ok [syncingAccount "a"])] (by decide)
  exact ⟨hw.1, hw.2.2.2.1, hw.2.2.2.2.2.1, hw.2.2.2.2.2.2⟩

end Monarch
